import Mathlib

/-!
Verification of the batched, rate-limited, resumable matrix-computation
engine of the Graphhopper bike-station repository.

The development shallowly embeds the two Python implementations found in
`bike_station_distances.py`:

* the resumable class `BikeStationDistanceCalculator` (progress snapshot,
  completed-batch list, per-block writes into a zero-initialised matrix), and
* the module-level function `calculate_distances` (NaN-initialised matrix,
  `range(0, n, WINDOW_SIZE)` window loops).

Machine floats carry no arithmetic here (distances are only stored and
compared), so distance values are modelled as `Int`; the NaN sentinel of the
module-level variant is modelled as `Option Int` with `none` for NaN.
The network boundary (coordinate extraction + HTTP request) is modelled as a
deterministic client function keyed by the (origin-window, destination-window)
pair, returning either the dense sub-matrix or a request failure.
-/

/-- Python `range(start, stop, step)` as a list of `Int`.  For a positive
step the elements are `start, start+step, ...` strictly below `stop`; for a
negative step they stay strictly above `stop`.  `step = 0` raises in Python;
callers guard it (see `createBatches`). -/
def pyRange (start stop step : Int) : List Int :=
  if 0 < step then
    (List.range ((stop - start + step - 1).toNat / step.toNat)).map
      (fun (k : Nat) => start + step * (k : Int))
  else if step < 0 then
    (List.range ((start - stop + (-step) - 1).toNat / (-step).toNat)).map
      (fun (k : Nat) => start + step * (k : Int))
  else []

/-- The batch-accumulation loop of `calculate_distances`
(`for i in range(batch_size, n_stations, batch_size): indices.append([prev, i]); prev = i`):
given the range list and the running `prev`, returns the accumulated
`indices` list and the final value of `prev`. -/
def buildIndices : List Int → Int → List (Int × Int) × Int
  | [], prev => ([], prev)
  | i :: rest, prev =>
      let r := buildIndices rest i
      ((prev, i) :: r.1, r.2)

/-- The "Create batches" block of `BikeStationDistanceCalculator.calculate_distances`
(lines 112-118): builds the window list and appends the trailing
`[prev, n_stations]` window.  `batch_size = 0` is the Python
`ValueError: range() arg 3 must not be zero`. -/
def createBatches (n_stations batch_size : Int) : Except String (List (Int × Int)) :=
  if batch_size = 0 then .error "range arg 3 must not be zero"
  else
    let bi := buildIndices (pyRange batch_size n_stations batch_size) 0
    .ok (bi.1 ++ [(bi.2, n_stations)])

/-- Distance matrix of the resumable variant: `np.zeros((n, n))`, modelled as a
total function with every cell initially `0`. -/
abbrev DistMatrix : Type := Int → Int → Int

/-- Contents of the progress-snapshot file as seen by `load_progress`:
either the file is absent, or present but not valid JSON/schema, or a
well-formed record of the matrix and the processed-batches list. -/
inductive SnapFile where
  | absent
  | malformed
  | wellFormed (distances : DistMatrix) (batches : List (Int × Int))

/-- Deterministic model of the network boundary of the resumable variant:
`extract_coordinates` plus `_make_api_request` for one
(origin-window, destination-window) pair, returning the dense result block
(indexed from `(0,0)`) or a request failure. -/
abbrev ReqClient : Type := (Int × Int) → (Int × Int) → Except Unit (Int → Int → Int)

/-- Observable events of a run: one remote call attempt (with its window pair
and outcome) or one rate-limit wait (`time.sleep`). -/
inductive AsmEvent where
  | call (origin_idx destination_idx : Int × Int) (ok : Bool)
  | sleep
  deriving DecidableEq, Repr

/-- In-memory state of `BikeStationDistanceCalculator.calculate_distances`,
together with the history of persisted snapshots (`saves`, one entry per
`save_progress` call, each recording the matrix and list written to disk) and
the event trace (`events`). -/
structure AsmState where
  final_result : DistMatrix
  processed_batches : List (Int × Int)
  saves : List (DistMatrix × List (Int × Int))
  events : List AsmEvent

/-- `save_progress(final_result, processed_batches)`: overwrites the snapshot
file; the model records the written snapshot in the `saves` history. -/
def save_progress (s : AsmState) : AsmState :=
  { s with saves := s.saves ++ [(s.final_result, s.processed_batches)] }

/-- Body of the destination loop (lines 129-151): call the client; on success
write the block, append the origin pair to `processed_batches`, persist, then
sleep; on failure persist and `continue` (note: the `continue` skips the
`time.sleep`). -/
def processDestination (client : ReqClient) (origin_idx : Int × Int)
    (s : AsmState) (destination_idx : Int × Int) : AsmState :=
  match client origin_idx destination_idx with
  | .ok results =>
      let M : DistMatrix := fun i j =>
        if origin_idx.1 ≤ i ∧ i < origin_idx.2 ∧
            destination_idx.1 ≤ j ∧ j < destination_idx.2 then
          results (i - origin_idx.1) (j - destination_idx.1)
        else s.final_result i j
      let s1 : AsmState :=
        { s with final_result := M,
                 processed_batches := s.processed_batches ++ [(origin_idx.1, origin_idx.2)],
                 events := s.events ++ [.call origin_idx destination_idx true] }
      let s2 := save_progress s1
      { s2 with events := s2.events ++ [.sleep] }
  | .error _ =>
      save_progress { s with events := s.events ++ [.call origin_idx destination_idx false] }

/-- Body of the origin loop (lines 121-151): skip the origin window if its
pair already occurs in `processed_batches`, otherwise run the destination loop
over the full `indices` list. -/
def processOrigin (client : ReqClient) (indices : List (Int × Int))
    (s : AsmState) (origin_idx : Int × Int) : AsmState :=
  if s.processed_batches.any
      (fun b => origin_idx.1 == b.1 && origin_idx.2 == b.2) then s
  else indices.foldl (processDestination client origin_idx) s

/-- The full origin × destination sweep of the resumable assembler. -/
def runBatches (client : ReqClient) (indices : List (Int × Int)) (s : AsmState) : AsmState :=
  indices.foldl (processOrigin client indices) s

namespace BikeStationDistanceCalculator

/-- `load_progress` (lines 47-59): a missing file yields `(None, [])`; a
present file is parsed with `json.load`, which raises on malformed contents
(there is no handler, so the error propagates); a well-formed file yields the
stored matrix and batch list. -/
def load_progress : SnapFile → Except String (Option DistMatrix × List (Int × Int))
  | .absent => .ok (none, [])
  | .malformed => .error "json decode error"
  | .wellFormed distances batches => .ok (some distances, batches)

/-- `BikeStationDistanceCalculator.calculate_distances` (lines 94-153): load
the snapshot (or start from the all-zero matrix and empty list), build the
batches, run the origin × destination sweep, and return the final state. -/
def calculate_distances (client : ReqClient) (snap : SnapFile)
    (n_stations batch_size : Int) : Except String AsmState := do
  let loaded ← load_progress snap
  let indices ← createBatches n_stations batch_size
  let final_result := loaded.1.getD (fun _ _ => 0)
  pure (runBatches client indices
    { final_result := final_result, processed_batches := loaded.2,
      saves := [], events := [] })

end BikeStationDistanceCalculator

/-- Matrix of the module-level variant: `np.full((n, n), np.nan)`, with the
NaN sentinel modelled as `none`. -/
abbrev ModMatrix : Type := Int → Int → Option Int

/-- Client model for the module-level variant, keyed by the window start
indices `(i, j)`.  `.error` is a `requests.exceptions.RequestException`;
`.ok none` is a 2xx response whose JSON lacks the `'distances'` key;
`.ok (some res)` carries the dense result block. -/
abbrev ModClient : Type := Int → Int → Except Unit (Option (Int → Int → Int))

/-- State of the module-level `calculate_distances`: the matrix and the event
trace. -/
structure ModState where
  distances : ModMatrix
  events : List AsmEvent

/-- Body of the module-level window loop (lines 203-248): compute the window
ends, call the API; on success with a `'distances'` key write the block and
sleep; on success without the key just sleep; on a request exception
`continue` (no sleep). -/
def processWindow (client : ModClient) (n_stations window_size : Int)
    (st : ModState) (i j : Int) : ModState :=
  let i_end := min (i + window_size) n_stations
  let j_end := min (j + window_size) n_stations
  match client i j with
  | .ok (some res) =>
      { distances := fun a b =>
          if i ≤ a ∧ a < i_end ∧ j ≤ b ∧ b < j_end then
            some (res (a - i) (b - j))
          else st.distances a b,
        events := st.events ++ [.call (i, i_end) (j, j_end) true, .sleep] }
  | .ok none =>
      { st with events := st.events ++ [.call (i, i_end) (j, j_end) true, .sleep] }
  | .error _ =>
      { st with events := st.events ++ [.call (i, i_end) (j, j_end) false] }

/-- Module-level `calculate_distances` (lines 195-250): NaN-initialised
matrix, nested `for i in range(0, n, W): for j in range(0, n, W)` loops. -/
def calculate_distances (client : ModClient) (n_stations window_size : Int) : ModState :=
  (pyRange 0 n_stations window_size).foldl
    (fun st i =>
      (pyRange 0 n_stations window_size).foldl
        (fun st2 j => processWindow client n_stations window_size st2 i j) st)
    { distances := fun _ _ => none, events := [] }

/-- Whether an event is a remote call attempt. -/
def AsmEvent.isCall : AsmEvent → Bool
  | .call _ _ _ => true
  | .sleep => false

deriving instance DecidableEq for Except

/-! ### Concrete clients and runs used by the claim evaluations -/

/-- Client that succeeds on every window pair with the constant block 7. -/
def clientConst7 : ReqClient := fun _ _ => .ok (fun _ _ => 7)

/-- Client that fails on every window pair. -/
def clientFailAll : ReqClient := fun _ _ => .error ()

/-- Client that fails exactly on the pair ((0,2),(0,2)) and returns the
constant block 5 elsewhere. -/
def clientFailFirst : ReqClient := fun origin_idx destination_idx =>
  if origin_idx.1 == 0 && origin_idx.2 == 2 &&
      destination_idx.1 == 0 && destination_idx.2 == 2 then .error ()
  else .ok (fun _ _ => 5)

/-- Fresh initial assembler state: all-zero matrix, nothing processed. -/
def freshState : AsmState :=
  { final_result := fun _ _ => 0, processed_batches := [], saves := [], events := [] }

/-- State of a 3-station / window-size-2 run (windows `[(0,2),(2,3)]`,
all-success client) interrupted right after origin window `(2,3)` finished its
first destination window `(0,2)`: origin `(0,2)` was processed fully, then one
destination step of `(2,3)` ran, then the process died.  Its
`final_result`/`processed_batches` are exactly what `save_progress` last wrote. -/
def interruptedRun : AsmState :=
  processDestination clientConst7 (2, 3)
    (processOrigin clientConst7 [(0, 2), (2, 3)] freshState (0, 2)) (0, 2)

/-- A fresh run that loads the snapshot persisted by `interruptedRun`. -/
def resumedRun : AsmState :=
  runBatches clientConst7 [(0, 2), (2, 3)]
    { final_result := interruptedRun.final_result,
      processed_batches := interruptedRun.processed_batches,
      saves := [], events := [] }

/-- The same 3-station / window-size-2 run with no interruption. -/
def uninterruptedRun : AsmState :=
  runBatches clientConst7 [(0, 2), (2, 3)] freshState

/-! ### C1, C2, C3: persisted-set discipline, resumability, rate limiting -/

/-- C1: the spec says an origin window O is added to the persisted completed
set only after every destination window of O is processed, and that mid-loop
persists write the set with O absent.  Evaluating the code on a fresh
3-station / window-size-2 run with an all-success client shows the opposite:
the very first persisted snapshot (written mid-loop, after O = (0,2)'s first
destination window and before its second) already contains (0,2), and each
subsequent success appends the origin pair again. -/
theorem C1_code_eval_mid_loop_persist :
    (BikeStationDistanceCalculator.calculate_distances clientConst7 .absent 3 2).map
        (fun s => s.saves.map Prod.snd)
      = .ok [[(0, 2)], [(0, 2), (0, 2)], [(0, 2), (0, 2), (2, 3)],
             [(0, 2), (0, 2), (2, 3), (2, 3)]] := by decide

/-- C2: the spec's resumability property fails on the code.  If the run is
interrupted after origin window O1 = (0,2) is fully completed but before
O2 = (2,3) is complete (here: after O2's first destination window succeeded
and was persisted), the fresh run finds (2,3) already in the persisted list,
skips O2 entirely (zero calls, empty event trace), and its final matrix leaves
block (2,3)×(2,3) unset (cell (2,2) = 0) where the uninterrupted run has the
client's value 7. -/
theorem C2_code_eval_resume_skips_partial_origin :
    createBatches 3 2 = .ok [(0, 2), (2, 3)] ∧
    interruptedRun.processed_batches = [(0, 2), (0, 2), (2, 3)] ∧
    resumedRun.events = [] ∧
    resumedRun.final_result 2 2 = 0 ∧
    uninterruptedRun.final_result 2 2 = 7 := by decide

/-- C3: the spec says the fixed rate-limit wait happens after every call
attempt, success or failure.  Evaluating the code on a run whose first request
fails shows two consecutive call events with no sleep between them: the
`continue` in the `except` branch jumps past `time.sleep`.  Every successful
call is followed by a sleep; the failed one is not. -/
theorem C3_code_eval_missing_sleep :
    (BikeStationDistanceCalculator.calculate_distances clientFailFirst .absent 3 2).map
        (fun s => s.events)
      = .ok [.call (0, 2) (0, 2) false, .call (0, 2) (2, 3) true, .sleep,
             .call (2, 3) (0, 2) true, .sleep, .call (2, 3) (2, 3) true, .sleep] := by
  decide

/-! ### C4: snapshot failure semantics -/

/-- C4 counterexample: a malformed snapshot is not treated as "no snapshot".
`load_progress` propagates the `json.load` error (there is no handler), which
is not the fresh-start value `(none, [])`. -/
theorem C4_counterexample_malformed_is_fatal :
    BikeStationDistanceCalculator.load_progress .malformed = .error "json decode error" ∧
    BikeStationDistanceCalculator.load_progress .malformed
      ≠ .ok (none, []) := by
  refine ⟨rfl, ?_⟩
  simp [BikeStationDistanceCalculator.load_progress]

/-- C4 amended: only an absent snapshot file yields a fresh start; a malformed
or unreadable snapshot makes `load_progress` raise, and the error aborts
`calculate_distances` before any work; a well-formed snapshot is loaded as
stored. -/
theorem C4_amended_snapshot_semantics :
    BikeStationDistanceCalculator.load_progress .absent = .ok (none, []) ∧
    BikeStationDistanceCalculator.load_progress .malformed = .error "json decode error" ∧
    (∀ m p, BikeStationDistanceCalculator.load_progress (.wellFormed m p) = .ok (some m, p)) ∧
    (∀ (client : ReqClient) (n w : Int),
      BikeStationDistanceCalculator.calculate_distances client .malformed n w
        = .error "json decode error") :=
  ⟨rfl, rfl, fun _ _ => rfl, fun _ _ _ => rfl⟩

/-! ### C5: zero stations -/

/-- C5 counterexample: with 0 stations the partition is not empty — the
trailing `indices.append([prev, n_stations])` runs unconditionally and yields
the degenerate window (0,0) — and the assembler issues one remote call for the
pair ((0,0),(0,0)) rather than zero. -/
theorem C5_counterexample_zero_stations :
    createBatches 0 80 = .ok [(0, 0)] ∧
    (BikeStationDistanceCalculator.calculate_distances clientFailAll .absent 0 80).map
        (fun s => s.events.length) = .ok 1 := by decide

/-- C5 amended: with 0 stations the partition is the single zero-length window
[(0,0)], the assembler issues exactly one remote call (here failing, for the
empty coordinate lists), and the returned matrix is untouched (trivially the
empty 0×0 matrix: every cell still 0). -/
theorem C5_amended_zero_stations :
    createBatches 0 80 = .ok [(0, 0)] ∧
    (BikeStationDistanceCalculator.calculate_distances clientFailAll .absent 0 80).map
        (fun s => s.events) = .ok [.call (0, 0) (0, 0) false] ∧
    (∀ i j : Int,
      (BikeStationDistanceCalculator.calculate_distances clientFailAll .absent 0 80).map
        (fun s => s.final_result i j) = .ok 0) :=
  ⟨by decide, by decide, fun _ _ => rfl⟩

/-! ### C8: argument validation -/

/-- C8 counterexample: the batch builder performs no validation.  With
windowSize = -1 and n = 5 it succeeds and returns the single window (0,5);
with n = -3 and windowSize = 2 it succeeds and returns (0,-3).  Neither input
fails with an InvalidArgument error as the claim requires. -/
theorem C8_counterexample_no_validation :
    createBatches 5 (-1) = .ok [(0, 5)] ∧
    createBatches (-3) 2 = .ok [(0, -3)] := by decide


/-! ### C6: the window partition -/

/-- Closed form of `pyRange` when start and step are the (positive) batch
size. -/
theorem pyRange_batch (n w : Int) (hw : 0 < w) :
    pyRange w n w = (List.range ((n - 1).toNat / w.toNat)).map
      (fun (k : Nat) => w * ((k : Int) + 1)) := by
  unfold pyRange
  rw [if_pos hw]
  have h1 : (n - w + w - 1).toNat = (n - 1).toNat := by omega
  rw [h1]
  apply List.map_congr_left
  intro k _
  ring

theorem buildIndices_batch (w : Int) :
    ∀ (c j : Nat),
      buildIndices ((List.range c).map (fun (k : Nat) => w * ((k : Int) + (j : Int) + 1)))
          (w * (j : Int))
        = ((List.range c).map
            (fun (k : Nat) => (w * ((k : Int) + (j : Int)), w * ((k : Int) + (j : Int) + 1))),
           w * ((c : Int) + (j : Int))) := by
  intro c
  induction c with
  | zero =>
      intro j
      simp [buildIndices]
  | succ m ih =>
      intro j
      have hrest : ((List.range (m + 1)).map (fun (k : Nat) => w * ((k : Int) + (j : Int) + 1)))
          = (w * (((j : Nat) + 1 : Nat) : Int)) ::
            ((List.range m).map (fun (k : Nat) => w * ((k : Int) + (((j : Nat) + 1 : Nat) : Int) + 1))) := by
        rw [List.range_succ_eq_map]
        simp only [List.map_cons, List.map_map]
        congr 1
        · push_cast
          ring
        · apply List.map_congr_left
          intro k _
          simp only [Function.comp_apply]
          push_cast
          ring
      rw [hrest]
      rw [buildIndices]
      rw [ih (j + 1)]
      refine Prod.ext ?_ ?_
      · rw [List.range_succ_eq_map]
        simp only [List.map_cons, List.map_map]
        congr 1
        · refine Prod.ext ?_ ?_ <;> (push_cast; ring)
        · apply List.map_congr_left
          intro k _
          simp only [Function.comp_apply]
          refine Prod.ext ?_ ?_ <;> (push_cast; ring)
      · push_cast
        ring

theorem createBatches_natCast (N W : Nat) (hN : 0 < N) (hW : 0 < W) :
    createBatches (N : Int) (W : Int)
      = .ok ((List.range ((N - 1) / W + 1)).map
          (fun (k : Nat) =>
            (((W : Int)) * (k : Int), min (((W : Int)) * ((k : Int) + 1)) (N : Int)))) := by
  have hw : (0 : Int) < (W : Int) := by exact_mod_cast hW
  unfold createBatches
  rw [if_neg (by exact_mod_cast hW.ne' : ¬ (W : Int) = 0)]
  rw [pyRange_batch (N : Int) (W : Int) hw]
  have e1 : ((N : Int) - 1).toNat = N - 1 := by omega
  have e2 : ((W : Int)).toNat = W := by omega
  rw [e1, e2]
  have hb := buildIndices_batch (W : Int) ((N - 1) / W) 0
  simp only [Nat.cast_zero, add_zero, mul_zero] at hb
  rw [hb]
  simp only
  congr 1
  rw [List.range_succ, List.map_append]
  congr 1
  · apply List.map_congr_left
    intro k hk
    have hk' : k < (N - 1) / W := List.mem_range.mp hk
    have hle : W * (k + 1) ≤ N - 1 := by
      calc W * (k + 1) = (k + 1) * W := Nat.mul_comm _ _
        _ ≤ ((N - 1) / W) * W := Nat.mul_le_mul_right W hk'
        _ ≤ N - 1 := Nat.div_mul_le_self _ _
    have hlt : W * (k + 1) < N := lt_of_le_of_lt hle (Nat.sub_lt hN Nat.one_pos)
    have hlt' : ((W : Int)) * ((k : Int) + 1) < (N : Int) := by exact_mod_cast hlt
    refine Prod.ext rfl ?_
    simp [min_eq_left hlt'.le]
  · have hdm := Nat.div_add_mod (N - 1) W
    have hmod : (N - 1) % W < W := Nat.mod_lt _ hW
    have hge : N ≤ W * ((N - 1) / W + 1) := by
      have h1 : N - 1 < W * ((N - 1) / W) + W := by omega
      have h2 : W * ((N - 1) / W + 1) = W * ((N - 1) / W) + W := by ring
      omega
    have hge' : (N : Int) ≤ ((W : Int)) * ((((N - 1) / W : Nat) : Int) + 1) := by
      exact_mod_cast hge
    rw [Int.natCast_div] at hge'
    simp [min_eq_right hge']

theorem lastWindowLen (N W : Nat) (hN : 0 < N) (hW : 0 < W) :
    N - W * ((N - 1) / W) = if N % W = 0 then W else N % W := by
  have hdm2 : N / W * W + N % W = N := Nat.div_add_mod' N W
  rcases Nat.eq_zero_or_pos (N % W) with h0 | h0
  · have hq1 : 1 ≤ N / W := by
      rcases Nat.eq_zero_or_pos (N / W) with h | h
      · rw [h] at hdm2; omega
      · exact h
    have hstep : (N / W - 1) * W + W = (N / W) * W := by
      have e2 : N / W = (N / W - 1) + 1 := by omega
      conv_rhs => rw [e2]
      ring
    obtain ⟨A, hA⟩ : ∃ A, (N / W - 1) * W = A := ⟨_, rfl⟩
    obtain ⟨B, hB⟩ : ∃ B, (N / W) * W = B := ⟨_, rfl⟩
    rw [hA, hB] at hstep
    rw [hB] at hdm2
    have hc : (N - 1) / W = N / W - 1 := by
      have e : N - 1 = (W - 1) + (N / W - 1) * W := by rw [hA]; omega
      rw [e, Nat.add_mul_div_right _ _ hW, Nat.div_eq_of_lt (by omega)]
      simp
    rw [hc, if_pos h0, Nat.mul_comm, hA]
    omega
  · have hrW : N % W < W := Nat.mod_lt _ hW
    obtain ⟨B, hB⟩ : ∃ B, (N / W) * W = B := ⟨_, rfl⟩
    rw [hB] at hdm2
    have hc : (N - 1) / W = N / W := by
      have e : N - 1 = (N % W - 1) + (N / W) * W := by rw [hB]; omega
      rw [e, Nat.add_mul_div_right _ _ hW, Nat.div_eq_of_lt (by omega)]
      simp
    rw [hc, if_neg (by omega), Nat.mul_comm, hB]
    omega

theorem windowIndexUnique (w : Int) (hw : 0 < w) (k₁ k₂ : Nat) (x : Int)
    (h1 : w * (k₁ : Int) ≤ x) (h2 : x < w * ((k₁ : Int) + 1))
    (h3 : w * (k₂ : Int) ≤ x) (h4 : x < w * ((k₂ : Int) + 1)) : k₁ = k₂ := by
  by_contra hne
  rcases Nat.lt_or_ge k₁ k₂ with h | h
  · have hle : w * ((k₁ : Int) + 1) ≤ w * (k₂ : Int) := by
      apply mul_le_mul_of_nonneg_left _ hw.le
      exact_mod_cast h
    linarith
  · have h' : k₂ < k₁ := by omega
    have hle : w * ((k₂ : Int) + 1) ≤ w * (k₁ : Int) := by
      apply mul_le_mul_of_nonneg_left _ hw.le
      exact_mod_cast h'
    linarith

theorem get_range_map {α : Type} (f : Nat → α) (m k : Nat)
    (hk : k < ((List.range m).map f).length) :
    ((List.range m).map f).get ⟨k, hk⟩ = f k := by
  simp [List.get_eq_getElem]

/-- C6 counterexample: at n = 0 the claim fails: the partition is the single
zero-length window (0,0), i.e. one window where ceil(0 / 2) = 0 windows are
claimed, and a zero-length trailing window IS produced. -/
theorem C6_counterexample_n_zero :
    createBatches 0 2 = .ok [(0, 0)] ∧
    (((0 : Int) + 2 - 1) / 2 = 0) ∧
    [((0 : Int), (0 : Int))].length = 1 := by decide

/-- C6 amended: for every n ≥ 1 (not n ≥ 0) and windowSize ≥ 1, the batch
builder produces ceil(n / windowSize) contiguous, non-overlapping
[start, end) windows covering exactly [0, n); every window except possibly
the last has length windowSize, the last has length n mod windowSize (or
windowSize when n is an exact multiple), and no zero-length window occurs. -/
theorem C6_amended_partition_properties (n w : Int) (hn : 0 < n) (hw : 0 < w) :
    ∃ L : List (Int × Int),
      createBatches n w = .ok L ∧
      ((L.length : Int) = (n + w - 1) / w) ∧
      (∀ (k : Nat) (hk : k < L.length),
        (L.get ⟨k, hk⟩).1 = w * (k : Int) ∧
        (L.get ⟨k, hk⟩).2 = min (w * ((k : Int) + 1)) n) ∧
      (∀ (k : Nat) (hk : k < L.length), (L.get ⟨k, hk⟩).1 < (L.get ⟨k, hk⟩).2) ∧
      (∀ (k : Nat) (hk : k + 1 < L.length),
        (L.get ⟨k, Nat.lt_of_succ_lt hk⟩).2 = (L.get ⟨k + 1, hk⟩).1) ∧
      (∀ (k : Nat) (hk : k + 1 < L.length),
        (L.get ⟨k, Nat.lt_of_succ_lt hk⟩).2 - (L.get ⟨k, Nat.lt_of_succ_lt hk⟩).1 = w) ∧
      (∀ (hk : L.length - 1 < L.length),
        (L.get ⟨L.length - 1, hk⟩).2 - (L.get ⟨L.length - 1, hk⟩).1
          = if n % w = 0 then w else n % w) ∧
      (∀ x : Int, (0 ≤ x ∧ x < n) ↔ ∃ b ∈ L, b.1 ≤ x ∧ x < b.2) ∧
      (∀ b₁ ∈ L, ∀ b₂ ∈ L, ∀ x : Int,
        b₁.1 ≤ x → x < b₁.2 → b₂.1 ≤ x → x < b₂.2 → b₁ = b₂) := by
  lift n to Nat using hn.le with N
  lift w to Nat using hw.le with W
  have hN : 0 < N := by exact_mod_cast hn
  have hW : 0 < W := by exact_mod_cast hw
  refine ⟨_, createBatches_natCast N W hN hW, ?_⟩
  set c := (N - 1) / W with hcdef
  have hWc_le : W * c ≤ N - 1 := by
    calc W * c = c * W := Nat.mul_comm _ _
      _ ≤ N - 1 := by rw [hcdef]; exact Nat.div_mul_le_self _ _
  have hmid : ∀ k : Nat, k + 1 ≤ c → W * (k + 1) ≤ N - 1 := by
    intro k hk
    exact le_trans (Nat.mul_le_mul_left W hk) hWc_le
  have hlastN : N ≤ W * (c + 1) := by
    have hdm := Nat.div_add_mod (N - 1) W
    rw [← hcdef] at hdm
    have hm : (N - 1) % W < W := Nat.mod_lt _ hW
    have e : W * (c + 1) = W * c + W := by ring
    obtain ⟨A, hA⟩ : ∃ A, W * c = A := ⟨_, rfl⟩
    rw [hA] at hdm e
    omega
  have hlastInt : (N : Int) ≤ ((W : Int)) * ((c : Int) + 1) := by exact_mod_cast hlastN
  refine ⟨?_, ?_, ?_, ?_, ?_, ?_, ?_, ?_⟩
  · -- length = ceil((n + w - 1) / w)
    have e : (N + W - 1) / W = c + 1 := by
      have e2 : N + W - 1 = (N - 1) + W := by omega
      rw [e2, Nat.add_div_right _ hW, hcdef]
    simp only [List.length_map, List.length_range]
    rw [← e, Int.natCast_div]
    congr 1
    omega
  · -- closed form of each window
    intro k hk
    rw [get_range_map]
    exact ⟨rfl, rfl⟩
  · -- no zero-length window
    intro k hk
    rw [get_range_map]
    dsimp only
    have hk' : k ≤ c := by
      simp only [List.length_map, List.length_range] at hk
      omega
    have h1 : W * k < N := by
      have := le_trans (Nat.mul_le_mul_left W hk') hWc_le
      omega
    refine lt_min ?_ ?_
    · have hlt : ((k : Int)) < (k : Int) + 1 := by linarith
      exact mul_lt_mul_of_pos_left hlt (by exact_mod_cast hW)
    · exact_mod_cast h1
  · -- contiguity
    intro k hk
    rw [get_range_map, get_range_map]
    dsimp only
    have hk' : k + 1 ≤ c := by
      simp only [List.length_map, List.length_range] at hk
      omega
    have h1 : W * (k + 1) < N := by
      have := hmid k hk'
      omega
    have h1' : ((W : Int)) * ((k : Int) + 1) ≤ (N : Int) := by
      have hlt : ((W : Int)) * ((k : Int) + 1) < (N : Int) := by exact_mod_cast h1
      exact hlt.le
    rw [min_eq_left h1']
    push_cast
    ring
  · -- all windows except the last have length w
    intro k hk
    rw [get_range_map]
    dsimp only
    have hk' : k + 1 ≤ c := by
      simp only [List.length_map, List.length_range] at hk
      omega
    have h1 : W * (k + 1) < N := by
      have := hmid k hk'
      omega
    have h1' : ((W : Int)) * ((k : Int) + 1) ≤ (N : Int) := by
      have hlt : ((W : Int)) * ((k : Int) + 1) < (N : Int) := by exact_mod_cast h1
      exact hlt.le
    rw [min_eq_left h1']
    ring
  · -- last window length
    intro hk
    rw [get_range_map]
    dsimp only
    have hidx : (List.map (fun (k : Nat) =>
        (((W : Int)) * (k : Int), min (((W : Int)) * ((k : Int) + 1)) (N : Int)))
        (List.range (c + 1))).length - 1 = c := by
      simp
    rw [hidx, min_eq_right hlastInt]
    have h1 : W * c ≤ N := le_trans hWc_le (Nat.sub_le _ _)
    have e1 : ((N : Int)) - ((W : Int)) * ((c : Int)) = ((N - W * c : Nat) : Int) := by
      rw [Nat.cast_sub h1]
      push_cast
      ring
    rw [e1]
    have key := lastWindowLen N W hN hW
    rw [← hcdef] at key
    rw [key]
    have hmc : ((N : Int)) % ((W : Int)) = ((N % W : Nat) : Int) := (Int.natCast_mod _ _).symm
    by_cases h : N % W = 0
    · rw [if_pos h, if_pos (by rw [hmc, h]; rfl)]
    · rw [if_neg h, if_neg (by rw [hmc]; exact_mod_cast h)]
      rw [hmc]
  · -- covers exactly [0, n)
    intro x
    constructor
    · rintro ⟨hx0, hxn⟩
      have hxN : x.toNat ≤ N - 1 := by omega
      set k := x.toNat / W with hkdef
      have hkc : k ≤ c := by
        rw [hkdef, hcdef]
        exact Nat.div_le_div_right hxN
      refine ⟨(((W : Int)) * (k : Int), min (((W : Int)) * ((k : Int) + 1)) (N : Int)),
        List.mem_map.mpr ⟨k, List.mem_range.mpr (by omega), rfl⟩, ?_, ?_⟩
      · dsimp only
        have h1 : W * k ≤ x.toNat := by
          calc W * k = k * W := Nat.mul_comm _ _
            _ ≤ x.toNat := by rw [hkdef]; exact Nat.div_mul_le_self _ _
        calc ((W : Int)) * ((k : Int)) = ((W * k : Nat) : Int) := by push_cast; ring
          _ ≤ ((x.toNat : Nat) : Int) := by exact_mod_cast h1
          _ = x := by omega
      · dsimp only
        refine lt_min ?_ (by exact_mod_cast hxn)
        have h2 : x.toNat < W * (k + 1) := by
          have hdm := Nat.div_add_mod x.toNat W
          rw [← hkdef] at hdm
          have hm : x.toNat % W < W := Nat.mod_lt _ hW
          have e : W * (k + 1) = W * k + W := by ring
          obtain ⟨A, hA⟩ : ∃ A, W * k = A := ⟨_, rfl⟩
          rw [hA] at hdm e
          omega
        calc x = ((x.toNat : Nat) : Int) := by omega
          _ < ((W * (k + 1) : Nat) : Int) := by exact_mod_cast h2
          _ = ((W : Int)) * ((k : Int) + 1) := by push_cast; ring
    · rintro ⟨b, hb, hbx1, hbx2⟩
      obtain ⟨k, hkmem, rfl⟩ := List.mem_map.mp hb
      dsimp only at hbx1 hbx2
      constructor
      · have h0 : (0 : Int) ≤ ((W : Int)) * ((k : Int)) := by positivity
        linarith
      · exact lt_of_lt_of_le hbx2 (min_le_right _ _)
  · -- non-overlapping
    intro b₁ hb₁ b₂ hb₂ x h1 h2 h3 h4
    obtain ⟨k₁, hk₁, rfl⟩ := List.mem_map.mp hb₁
    obtain ⟨k₂, hk₂, rfl⟩ := List.mem_map.mp hb₂
    dsimp only at h1 h2 h3 h4
    have e := windowIndexUnique (W : Int) (by exact_mod_cast hW) k₁ k₂ x h1
      (lt_of_lt_of_le h2 (min_le_left _ _)) h3 (lt_of_lt_of_le h4 (min_le_left _ _))
    rw [e]

/-! ### Skip behaviour of the origin loop -/

/-- An origin window whose pair already occurs in `processed_batches` is
skipped: the state is unchanged. -/
theorem processOrigin_skip (client : ReqClient) (indices : List (Int × Int))
    (s : AsmState) (o : Int × Int) (h : (o.1, o.2) ∈ s.processed_batches) :
    processOrigin client indices s o = s := by
  unfold processOrigin
  rw [if_pos]
  rw [List.any_eq_true]
  exact ⟨(o.1, o.2), h, by simp⟩

/-- If every origin window of a list is already recorded in
`processed_batches`, the whole origin sweep leaves the state unchanged. -/
theorem foldOrigins_skip_all (client : ReqClient) (indices : List (Int × Int)) :
    ∀ (l : List (Int × Int)) (s : AsmState),
      (∀ o ∈ l, (o.1, o.2) ∈ s.processed_batches) →
      l.foldl (processOrigin client indices) s = s := by
  intro l
  induction l with
  | nil => intro s _; rfl
  | cons o rest ih =>
      intro s h
      rw [List.foldl_cons, processOrigin_skip client indices s o (h o (by simp))]
      exact ih s (fun o' ho' => h o' (by simp [ho']))

/-- C9: running the assembler on a progress store that already records every
origin window as completed returns the stored matrix unchanged and issues zero
network calls (the event trace is empty). -/
theorem C9_idempotent_completed_rerun (client : ReqClient)
    (indices : List (Int × Int)) (M : DistMatrix) (P : List (Int × Int))
    (hall : ∀ o ∈ indices, (o.1, o.2) ∈ P) :
    (∀ i j, (runBatches client indices ⟨M, P, [], []⟩).final_result i j = M i j) ∧
    (runBatches client indices ⟨M, P, [], []⟩).events = [] := by
  have h : runBatches client indices ⟨M, P, [], []⟩ = ⟨M, P, [], []⟩ :=
    foldOrigins_skip_all client indices indices ⟨M, P, [], []⟩ hall
  rw [runBatches] at h
  rw [runBatches, h]
  exact ⟨fun i j => rfl, rfl⟩

/-- Witness for C9 at the 3-station / window-size-2 partition with the stored
matrix constantly 3 and both windows completed. -/
theorem C9_idempotent_completed_rerun_witness :
    (∀ o ∈ [((0:Int), (2:Int)), (2, 3)], (o.1, o.2) ∈ [((0:Int), (2:Int)), (2, 3)]) ∧
    ((∀ i j, (runBatches clientConst7 [(0, 2), (2, 3)]
        ⟨fun _ _ => 3, [(0, 2), (2, 3)], [], []⟩).final_result i j = 3) ∧
      (runBatches clientConst7 [(0, 2), (2, 3)]
        ⟨fun _ _ => 3, [(0, 2), (2, 3)], [], []⟩).events = []) :=
  ⟨by decide,
   C9_idempotent_completed_rerun clientConst7 [(0, 2), (2, 3)]
     (fun _ _ => 3) [(0, 2), (2, 3)] (by decide)⟩

/-! ### C10: per-success growth of the processed-batches list -/

/-- Destination sweep with an all-success client: each destination window
appends one copy of the origin pair to `processed_batches`, and each persisted
snapshot records the list with the copies appended so far. -/
theorem foldDest_all_ok (client : ReqClient) (o : Int × Int) :
    ∀ (ds : List (Int × Int)) (s : AsmState),
      (∀ d ∈ ds, ∃ r, client o d = .ok r) →
      ((ds.foldl (processDestination client o) s).processed_batches
          = s.processed_batches ++ List.replicate ds.length (o.1, o.2)) ∧
      ((ds.foldl (processDestination client o) s).saves.map Prod.snd
          = s.saves.map Prod.snd ++ (List.range ds.length).map
              (fun t => s.processed_batches ++ List.replicate (t + 1) (o.1, o.2))) := by
  intro ds
  induction ds with
  | nil => intro s _; simp
  | cons d rest ih =>
      intro s h
      obtain ⟨r, hr⟩ := h d (by simp)
      rw [List.foldl_cons]
      have hstep : processDestination client o s d =
          { final_result := fun i j =>
              if o.1 ≤ i ∧ i < o.2 ∧ d.1 ≤ j ∧ j < d.2 then
                r (i - o.1) (j - d.1)
              else s.final_result i j,
            processed_batches := s.processed_batches ++ [(o.1, o.2)],
            saves := s.saves ++ [(fun i j =>
              if o.1 ≤ i ∧ i < o.2 ∧ d.1 ≤ j ∧ j < d.2 then
                r (i - o.1) (j - d.1)
              else s.final_result i j, s.processed_batches ++ [(o.1, o.2)])],
            events := s.events ++ [.call o d true] ++ [.sleep] } := by
        simp only [processDestination, hr, save_progress]
      rw [hstep]
      obtain ⟨ih1, ih2⟩ := ih _ (fun d' hd' => h d' (by simp [hd']))
      refine ⟨?_, ?_⟩
      · rw [ih1]
        simp [List.replicate_succ, List.append_assoc]
      · rw [ih2]
        simp only [List.length_cons]
        rw [List.range_succ_eq_map]
        simp only [List.map_append, List.map_cons, List.map_nil, List.map_map,
          List.append_assoc, List.singleton_append]
        congr 1
  
/-- C10: for an origin window not yet recorded, processing it with an
all-success client appends its (start, end) pair once per destination window:
after k destination windows the pair occurs k additional times in
`processed_batches` (a multiset, not a set), and the t-th persisted snapshot
of the loop records t+1 copies. -/
theorem C10_processed_batches_multiset (client : ReqClient)
    (indices : List (Int × Int)) (s : AsmState) (origin_idx : Int × Int)
    (hnew : (origin_idx.1, origin_idx.2) ∉ s.processed_batches)
    (hok : ∀ d ∈ indices, ∃ r, client origin_idx d = .ok r) :
    (processOrigin client indices s origin_idx).processed_batches
        = s.processed_batches
            ++ List.replicate indices.length (origin_idx.1, origin_idx.2) ∧
    (processOrigin client indices s origin_idx).saves.map Prod.snd
        = s.saves.map Prod.snd ++ (List.range indices.length).map
            (fun t => s.processed_batches
              ++ List.replicate (t + 1) (origin_idx.1, origin_idx.2)) := by
  have hskip : (s.processed_batches.any
      (fun b => origin_idx.1 == b.1 && origin_idx.2 == b.2)) = false := by
    rw [List.any_eq_false]
    intro b hb
    simp only [Bool.and_eq_true, beq_iff_eq, not_and]
    intro h1 h2
    refine hnew ?_
    have : (origin_idx.1, origin_idx.2) = b := by rw [h1, h2]
    rw [this]
    exact hb
  unfold processOrigin
  rw [hskip]
  simp only [Bool.false_eq_true, if_false]
  exact foldDest_all_ok client origin_idx indices s hok

/-- Witness for C10: origin window (0,2) against the two destination windows
of the 3-station / window-size-2 run, all-success client. -/
theorem C10_processed_batches_multiset_witness :
    ((0:Int), (2:Int)) ∉ freshState.processed_batches ∧
    (processOrigin clientConst7 [(0, 2), (2, 3)] freshState (0, 2)).processed_batches
        = List.replicate 2 ((0:Int), (2:Int)) ∧
    (processOrigin clientConst7 [(0, 2), (2, 3)] freshState (0, 2)).saves.map Prod.snd
        = [[((0:Int), (2:Int))], [(0, 2), (0, 2)]] := by
  have h := C10_processed_batches_multiset clientConst7 [(0, 2), (2, 3)]
    freshState (0, 2) (by decide) (fun d _ => ⟨_, rfl⟩)
  refine ⟨by decide, ?_, ?_⟩
  · simpa using h.1
  · simpa [List.range_succ] using h.2

/-- C8 amended: the batch builder never raises InvalidArgument; the only
failing input is windowSize = 0 (Python `range` rejects a zero step), and
that failure does abort `calculate_distances` before any network activity;
windowSize < 0 (with n ≥ 0) and n < 0 (with windowSize > 0) silently yield
the single window (0, n). -/
theorem C8_amended_validation_behavior :
    (∀ n : Int, createBatches n 0 = .error "range arg 3 must not be zero") ∧
    (∀ n w : Int, 0 ≤ n → w < 0 → createBatches n w = .ok [(0, n)]) ∧
    (∀ n w : Int, n < 0 → 0 < w → createBatches n w = .ok [(0, n)]) ∧
    (∀ (client : ReqClient) (n : Int),
      BikeStationDistanceCalculator.calculate_distances client .absent n 0
        = .error "range arg 3 must not be zero") := by
  refine ⟨fun n => rfl, ?_, ?_, fun client n => rfl⟩
  · intro n w hn hw
    have h0 : (w - n + -w - 1).toNat = 0 := by omega
    unfold createBatches pyRange
    rw [if_neg (by omega : ¬ w = 0), if_neg (by omega : ¬ (0:Int) < w), if_pos hw, h0]
    simp [buildIndices]
  · intro n w hn hw
    have h0 : (n - w + w - 1).toNat = 0 := by omega
    unfold createBatches pyRange
    rw [if_neg (by omega : ¬ w = 0), if_pos hw, h0]
    simp [buildIndices]

/-- Witness for C8 amended at windowSize 0, windowSize -3 and n = -2. -/
theorem C8_amended_validation_behavior_witness :
    createBatches 7 0 = .error "range arg 3 must not be zero" ∧
    ((0:Int) ≤ 7 ∧ (-3:Int) < 0 ∧ createBatches 7 (-3) = .ok [(0, 7)]) ∧
    ((-2:Int) < 0 ∧ (0:Int) < 3 ∧ createBatches (-2) 3 = .ok [(0, -2)]) :=
  ⟨C8_amended_validation_behavior.1 7,
   ⟨by decide, by decide,
    C8_amended_validation_behavior.2.1 7 (-3) (by decide) (by decide)⟩,
   ⟨by decide, by decide,
    C8_amended_validation_behavior.2.2.1 (-2) 3 (by decide) (by decide)⟩⟩

/-- Witness for C6 amended at n = 5, w = 2 (partition [(0,2),(2,4),(4,5)]). -/
theorem C6_amended_partition_properties_witness :
    (0 : Int) < 5 ∧ (0 : Int) < 2 ∧
    (∃ L : List (Int × Int),
      createBatches 5 2 = .ok L ∧
      ((L.length : Int) = (5 + 2 - 1) / 2) ∧
      (∀ (k : Nat) (hk : k < L.length),
        (L.get ⟨k, hk⟩).1 = 2 * (k : Int) ∧
        (L.get ⟨k, hk⟩).2 = min (2 * ((k : Int) + 1)) 5) ∧
      (∀ (k : Nat) (hk : k < L.length), (L.get ⟨k, hk⟩).1 < (L.get ⟨k, hk⟩).2) ∧
      (∀ (k : Nat) (hk : k + 1 < L.length),
        (L.get ⟨k, Nat.lt_of_succ_lt hk⟩).2 = (L.get ⟨k + 1, hk⟩).1) ∧
      (∀ (k : Nat) (hk : k + 1 < L.length),
        (L.get ⟨k, Nat.lt_of_succ_lt hk⟩).2 - (L.get ⟨k, Nat.lt_of_succ_lt hk⟩).1 = 2) ∧
      (∀ (hk : L.length - 1 < L.length),
        (L.get ⟨L.length - 1, hk⟩).2 - (L.get ⟨L.length - 1, hk⟩).1
          = if (5 : Int) % 2 = 0 then 2 else (5 : Int) % 2) ∧
      (∀ x : Int, (0 ≤ x ∧ x < 5) ↔ ∃ b ∈ L, b.1 ≤ x ∧ x < b.2) ∧
      (∀ b₁ ∈ L, ∀ b₂ ∈ L, ∀ x : Int,
        b₁.1 ≤ x → x < b₁.2 → b₂.1 ≤ x → x < b₂.2 → b₁ = b₂)) :=
  ⟨by decide, by decide, C6_amended_partition_properties 5 2 (by decide) (by decide)⟩

/-! ### C7: partial failure containment in the module-level variant -/

theorem pyRange_zero_start (n W : Int) (hW : 0 < W) :
    pyRange 0 n W = (List.range ((n + W - 1).toNat / W.toNat)).map
      (fun (k : Nat) => W * (k : Int)) := by
  unfold pyRange
  rw [if_pos hW]
  have e : n - 0 + W - 1 = n + W - 1 := by ring
  rw [e]
  apply List.map_congr_left
  intro k _
  ring

theorem wins_nodup (n W : Int) (hW : 0 < W) : (pyRange 0 n W).Nodup := by
  rw [pyRange_zero_start n W hW]
  refine List.Nodup.map ?_ (List.nodup_range _)
  intro a b hab
  have : ((a : Int)) = (b : Int) := mul_left_cancel₀ (by omega : W ≠ 0) hab
  exact_mod_cast this

theorem wins_cover_unique (n W : Int) (hW : 0 < W) (i i' a : Int)
    (hi : i ∈ pyRange 0 n W) (hi' : i' ∈ pyRange 0 n W)
    (h1 : i ≤ a) (h2 : a < min (i + W) n) (h1' : i' ≤ a) (h2' : a < min (i' + W) n) :
    i = i' := by
  rw [pyRange_zero_start n W hW] at hi hi'
  obtain ⟨k, _, rfl⟩ := List.mem_map.mp hi
  obtain ⟨k', _, rfl⟩ := List.mem_map.mp hi'
  have e := windowIndexUnique W hW k k' a h1
    (by
      have := lt_of_lt_of_le h2 (min_le_left _ _)
      calc a < W * (k : Int) + W := this
        _ = W * ((k : Int) + 1) := by ring)
    h1'
    (by
      have := lt_of_lt_of_le h2' (min_le_left _ _)
      calc a < W * (k' : Int) + W := this
        _ = W * ((k' : Int) + 1) := by ring)
  rw [e]

theorem nested_foldl {α : Type} (f : α → Int → Int → α) :
    ∀ (l₁ l₂ : List Int) (init : α),
      l₁.foldl (fun st i => l₂.foldl (fun st2 j => f st2 i j) st) init
        = (l₁ ×ˢ l₂).foldl (fun st p => f st p.1 p.2) init := by
  intro l₁
  induction l₁ with
  | nil => intro l₂ init; rfl
  | cons i rest ih =>
      intro l₂ init
      rw [List.foldl_cons, List.product_cons, List.foldl_append, List.foldl_map]
      exact ih l₂ _

theorem processWindow_preserve (client : ModClient) (n W : Int) (st : ModState)
    (i j a b : Int)
    (h : ¬ (i ≤ a ∧ a < min (i + W) n ∧ j ≤ b ∧ b < min (j + W) n)) :
    (processWindow client n W st i j).distances a b = st.distances a b := by
  rcases hc : client i j with e | o
  · simp only [processWindow, hc]
  · rcases o with _ | res
    · simp only [processWindow, hc]
    · simp only [processWindow, hc]
      rw [if_neg h]

theorem processWindow_preserve_err (client : ModClient) (n W : Int) (st : ModState)
    (i j a b : Int) (h : client i j = .error ()) :
    (processWindow client n W st i j).distances a b = st.distances a b := by
  simp only [processWindow, h]

theorem processWindow_write (client : ModClient) (n W : Int) (st : ModState)
    (i j a b : Int) (res : Int → Int → Int)
    (hok : client i j = .ok (some res))
    (hcov : i ≤ a ∧ a < min (i + W) n ∧ j ≤ b ∧ b < min (j + W) n) :
    (processWindow client n W st i j).distances a b = some (res (a - i) (b - j)) := by
  simp only [processWindow, hok]
  rw [if_pos hcov]

theorem foldPairs_preserve (client : ModClient) (n W : Int) (a b : Int) :
    ∀ (P : List (Int × Int)) (st : ModState),
      (∀ p ∈ P, ∀ st' : ModState,
        (processWindow client n W st' p.1 p.2).distances a b = st'.distances a b) →
      ((P.foldl (fun st p => processWindow client n W st p.1 p.2) st).distances a b
        = st.distances a b) := by
  intro P
  induction P with
  | nil => intro st _; rfl
  | cons p rest ih =>
      intro st h
      rw [List.foldl_cons]
      rw [ih _ (fun p' hp' => h p' (by simp [hp']))]
      exact h p (by simp) st

theorem processWindow_one_call (client : ModClient) (n W : Int) (st : ModState)
    (i j : Int) :
    ((processWindow client n W st i j).events.filter AsmEvent.isCall).length
      = (st.events.filter AsmEvent.isCall).length + 1 := by
  rcases hc : client i j with e | o
  · simp [processWindow, hc, AsmEvent.isCall]
  · rcases o with _ | res <;> simp [processWindow, hc, AsmEvent.isCall]

theorem foldPairs_calls (client : ModClient) (n W : Int) :
    ∀ (P : List (Int × Int)) (st : ModState),
      ((P.foldl (fun st p => processWindow client n W st p.1 p.2) st).events.filter
          AsmEvent.isCall).length
        = (st.events.filter AsmEvent.isCall).length + P.length := by
  intro P
  induction P with
  | nil => intro st; rfl
  | cons p rest ih =>
      intro st
      rw [List.foldl_cons, ih, processWindow_one_call]
      simp [Nat.add_comm, Nat.add_assoc]
      omega

/-- C7: in the module-level `calculate_distances` (NaN-initialised matrix),
if the client fails for exactly one window pair (iStar, jStar), the run still
visits every window pair (one call event per pair), every other block of the
final matrix is fully populated with the client's returned values, and only
the failed block remains unset (`none`, the NaN sentinel) — distinguishable
from a stored zero distance (`some 0`). -/
theorem C7_partial_failure_containment
    (client : ModClient) (res : Int → Int → Int → Int → Int)
    (n W iStar jStar : Int) (hW : 0 < W)
    (hi : iStar ∈ pyRange 0 n W) (hj : jStar ∈ pyRange 0 n W)
    (herr : client iStar jStar = .error ())
    (hok : ∀ i ∈ pyRange 0 n W, ∀ j ∈ pyRange 0 n W,
      ¬(i = iStar ∧ j = jStar) → client i j = .ok (some (res i j))) :
    (((calculate_distances client n W).events.filter AsmEvent.isCall).length
        = (pyRange 0 n W).length * (pyRange 0 n W).length) ∧
    (∀ i ∈ pyRange 0 n W, ∀ j ∈ pyRange 0 n W, ¬(i = iStar ∧ j = jStar) →
      ∀ a b : Int, i ≤ a → a < min (i + W) n → j ≤ b → b < min (j + W) n →
        (calculate_distances client n W).distances a b
          = some (res i j (a - i) (b - j))) ∧
    (∀ a b : Int, iStar ≤ a → a < min (iStar + W) n →
      jStar ≤ b → b < min (jStar + W) n →
      (calculate_distances client n W).distances a b = none) := by
  have hfold : calculate_distances client n W
      = ((pyRange 0 n W) ×ˢ (pyRange 0 n W)).foldl
          (fun st p => processWindow client n W st p.1 p.2)
          { distances := fun _ _ => none, events := [] } := by
    unfold calculate_distances
    exact nested_foldl (fun st i j => processWindow client n W st i j) _ _ _
  refine ⟨?_, ?_, ?_⟩
  · rw [hfold, foldPairs_calls]
    simp [List.length_product]
  · intro i hi2 j hj2 hne a b h1 h2 h3 h4
    have hmem : (i, j) ∈ (pyRange 0 n W) ×ˢ (pyRange 0 n W) :=
      List.mem_product.mpr ⟨hi2, hj2⟩
    obtain ⟨P₁, P₂, hdecomp⟩ := List.append_of_mem hmem
    have hnd : ((pyRange 0 n W) ×ˢ (pyRange 0 n W)).Nodup :=
      (wins_nodup n W hW).product (wins_nodup n W hW)
    have hnotin : (i, j) ∉ P₂ := by
      rw [hdecomp] at hnd
      exact (List.nodup_cons.mp hnd.of_append_right).1
    have hpres : ∀ p ∈ P₂, ∀ st' : ModState,
        (processWindow client n W st' p.1 p.2).distances a b
          = st'.distances a b := by
      intro p hp st'
      have hpmem : p ∈ (pyRange 0 n W) ×ˢ (pyRange 0 n W) := by
        rw [hdecomp]
        simp [hp]
      obtain ⟨hp1, hp2⟩ : p.1 ∈ pyRange 0 n W ∧ p.2 ∈ pyRange 0 n W := by
        rcases p with ⟨pi, pj⟩
        exact List.mem_product.mp hpmem
      by_cases hcov : p.1 ≤ a ∧ a < min (p.1 + W) n ∧ p.2 ≤ b ∧ b < min (p.2 + W) n
      · exfalso
        obtain ⟨c1, c2, c3, c4⟩ := hcov
        have e1 : p.1 = i := wins_cover_unique n W hW p.1 i a hp1 hi2 c1 c2 h1 h2
        have e2 : p.2 = j := wins_cover_unique n W hW p.2 j b hp2 hj2 c3 c4 h3 h4
        have hpij : p = (i, j) := by
          rcases p with ⟨pi, pj⟩
          simp only [Prod.mk.injEq]
          exact ⟨e1, e2⟩
        exact hnotin (hpij ▸ hp)
      · exact processWindow_preserve client n W st' p.1 p.2 a b hcov
    rw [hfold, hdecomp, List.foldl_append, List.foldl_cons,
      foldPairs_preserve client n W a b P₂ _ hpres]
    exact processWindow_write client n W _ i j a b (res i j)
      (hok i hi2 j hj2 hne) ⟨h1, h2, h3, h4⟩
  · intro a b h1 h2 h3 h4
    have hall : ∀ p ∈ (pyRange 0 n W) ×ˢ (pyRange 0 n W), ∀ st' : ModState,
        (processWindow client n W st' p.1 p.2).distances a b
          = st'.distances a b := by
      intro p hp st'
      obtain ⟨hp1, hp2⟩ : p.1 ∈ pyRange 0 n W ∧ p.2 ∈ pyRange 0 n W := by
        rcases p with ⟨pi, pj⟩
        exact List.mem_product.mp hp
      by_cases hcov : p.1 ≤ a ∧ a < min (p.1 + W) n ∧ p.2 ≤ b ∧ b < min (p.2 + W) n
      · obtain ⟨c1, c2, c3, c4⟩ := hcov
        have e1 : p.1 = iStar := wins_cover_unique n W hW p.1 iStar a hp1 hi c1 c2 h1 h2
        have e2 : p.2 = jStar := wins_cover_unique n W hW p.2 jStar b hp2 hj c3 c4 h3 h4
        refine processWindow_preserve_err client n W st' p.1 p.2 a b ?_
        rw [e1, e2]
        exact herr
      · exact processWindow_preserve client n W st' p.1 p.2 a b hcov
    rw [hfold, foldPairs_preserve client n W a b _ _ hall]

/-- Module-level client that fails exactly on the window pair starting at
(0,0) and returns the constant block 9 elsewhere. -/
def clientModFailFirst : ModClient := fun i j =>
  if i == 0 && j == 0 then .error () else .ok (some (fun _ _ => 9))

/-- Witness for C7: 3 stations, window size 2 (window starts [0,2]), client
failing exactly on the (0,0) window pair. -/
theorem C7_partial_failure_containment_witness :
    (0 : Int) < 2 ∧ (0 : Int) ∈ pyRange 0 3 2 ∧
    clientModFailFirst 0 0 = .error () ∧
    ((((calculate_distances clientModFailFirst 3 2).events.filter
          AsmEvent.isCall).length
        = (pyRange 0 3 2).length * (pyRange 0 3 2).length) ∧
      (∀ i ∈ pyRange 0 3 2, ∀ j ∈ pyRange 0 3 2, ¬(i = 0 ∧ j = 0) →
        ∀ a b : Int, i ≤ a → a < min (i + 2) 3 → j ≤ b → b < min (j + 2) 3 →
          (calculate_distances clientModFailFirst 3 2).distances a b = some 9) ∧
      (∀ a b : Int, 0 ≤ a → a < min (0 + 2) 3 → 0 ≤ b → b < min (0 + 2) 3 →
        (calculate_distances clientModFailFirst 3 2).distances a b = none)) :=
  ⟨by decide, by decide, rfl,
   C7_partial_failure_containment clientModFailFirst (fun _ _ _ _ => 9) 3 2 0 0
     (by decide) (by decide) (by decide) rfl
     (by
       have e : pyRange 0 3 2 = [0, 2] := by decide
       intro i hi j hj hne
       rw [e] at hi hj
       simp only [List.mem_cons, List.mem_singleton, List.not_mem_nil, or_false] at hi hj
       rcases hi with rfl | rfl <;> rcases hj with rfl | rfl
       · exact absurd ⟨rfl, rfl⟩ hne
       · rfl
       · rfl
       · rfl)⟩
